import Mathlib

/-!
Verification of the comment-analytics core: pagination loop, text cleaning,
sentiment scoring and combination, topic and content-idea extraction, and
the aggregate statistics, embedded shallowly from the Python sources.
-/

/-- Python truthiness of a `nextPageToken` value: `None` and the empty string
are falsy, so the loop treats both as "no continuation token". -/
def tokenTruthy : Option String → Bool
  | none => false
  | some s => !(s == "")

/-- One page-request outcome of the upstream `fetch_comments` collaborator:
either an exception (modelled by its message) or the page's comments together
with the `nextPageToken` of the response metadata.  A pagination run is the
list of outcomes of the successive requests the loop makes. -/
abbrev PageOutcome (α : Type) := Except String (List α × Option String)

/-- Loop body of `fetch_all_comments` in `api.py` (lines 52-120), with the
accumulated `all_comments` made explicit.  Checks after each page, in source
order: empty page stops; `max_results` reached trims and stops; falsy
continuation token stops; otherwise the next outcome is consumed.  The
surrounding `try/except` returns the accumulated comments on an exception
when at least one was accumulated, and re-raises otherwise. -/
def fetchAllLoopApi (maxResults : Option Nat) (acc : List α) :
    List (PageOutcome α) → Except String (List α)
  | [] => .ok acc
  | .error e :: _ => if acc.isEmpty then .error e else .ok acc
  | .ok (pageComments, nextTok) :: rest =>
    if pageComments.isEmpty then .ok acc
    else
      let acc' := acc ++ pageComments
      match maxResults with
      | some m =>
        if m ≤ acc'.length then .ok (acc'.take m)
        else if tokenTruthy nextTok then fetchAllLoopApi maxResults acc' rest
        else .ok acc'
      | none =>
        if tokenTruthy nextTok then fetchAllLoopApi maxResults acc' rest
        else .ok acc'

/-- `fetch_all_comments` of `api.py`, run against a fake upstream whose k-th
element answers the k-th page request. -/
def fetchAllCommentsApi (pages : List (PageOutcome α)) (maxResults : Option Nat) :
    Except String (List α) :=
  fetchAllLoopApi maxResults [] pages

/-- Loop body of `fetch_all_comments` in `utils/youtube_api.py` (lines
132-218).  The pagination logic is the same, but the `except` branch wraps
the exception in `ValueError("Error fetching comments: ...")` and re-raises
it unconditionally, discarding any accumulated comments. -/
def fetchAllLoopYt (maxResults : Option Nat) (acc : List α) :
    List (PageOutcome α) → Except String (List α)
  | [] => .ok acc
  | .error e :: _ => .error ("Error fetching comments: " ++ e)
  | .ok (pageComments, nextTok) :: rest =>
    if pageComments.isEmpty then .ok acc
    else
      let acc' := acc ++ pageComments
      match maxResults with
      | some m =>
        if m ≤ acc'.length then .ok (acc'.take m)
        else if tokenTruthy nextTok then fetchAllLoopYt maxResults acc' rest
        else .ok acc'
      | none =>
        if tokenTruthy nextTok then fetchAllLoopYt maxResults acc' rest
        else .ok acc'

/-- `fetch_all_comments` of `utils/youtube_api.py` against a fake upstream. -/
def fetchAllCommentsYt (pages : List (PageOutcome α)) (maxResults : Option Nat) :
    Except String (List α) :=
  fetchAllLoopYt maxResults [] pages

/-- The comments of a successful page outcome. -/
def okPageComments : PageOutcome α → Option (List α)
  | .ok (pc, _) => some pc
  | .error _ => none

/-- ASCII fragment of Python's whitespace class, used by the `\s` regex
class, `str.split()` and `str.strip()`. -/
def pyIsSpace (c : Char) : Bool :=
  c == ' ' || c == '\t' || c == '\n' || c == '\r' || c == '\x0b' || c == '\x0c'

/-- The 32 characters of Python's `string.punctuation`, in source order.  The
double quote, single quote, backslash, backtick and braces are spelled by
code point. -/
def pyPunctuation : List Char :=
  "!".toList ++ [Char.ofNat 34] ++ "#$%&".toList ++ [Char.ofNat 39] ++
    "()*+,-./:;<=>?@[".toList ++ [Char.ofNat 92] ++ "]^_".toList ++
    [Char.ofNat 96] ++ "\x7b|\x7d~".toList

/-- `text.replace(p, " ")` for a single-character `p`. -/
def replaceCharWithSpace (p : Char) (l : List Char) : List Char :=
  l.map (fun c => if c == p then ' ' else c)

/-- The punctuation loop of `clean_comment_text` (`utils/sentiment.py` lines
124-126): each `string.punctuation` character that is not a key of
`emoji.EMOJI_DATA` is replaced by a space.  The emoji table is an external
collaborator, so membership in it is a parameter. -/
def stripPunct (emojiData : Char → Bool) (l : List Char) : List Char :=
  pyPunctuation.foldl
    (fun acc p => if emojiData p then acc else replaceCharWithSpace p acc) l

/-- Head match of the literal part `https?://` of the URL regex: consumes
`https://` (greedy `s?` first) or `http://` and returns the remainder. -/
def dropHttpPrefix (l : List Char) : Option (List Char) :=
  if "https://".toList.isPrefixOf l then some (l.drop 8)
  else if "http://".toList.isPrefixOf l then some (l.drop 7)
  else none

/-- Head match of the URL regex `https?://\S+`: after the literal part, at
least one non-whitespace character must follow; the maximal run is consumed.
Returns what is left after the match. -/
def urlMatch (l : List Char) : Option (List Char) :=
  match dropHttpPrefix l with
  | none => none
  | some r =>
    let run := r.takeWhile (fun c => !pyIsSpace c)
    if run.isEmpty then none else some (r.drop run.length)

/-- `re.sub(r"https?://\S+", "", text)`: scan left to right, deleting each
leftmost non-overlapping match.  Each match consumes at least eight
characters, so fuel equal to the input length never runs out. -/
def removeUrlsGo : Nat → List Char → List Char
  | 0, l => l
  | _ + 1, [] => []
  | fuel + 1, c :: rest =>
    match urlMatch (c :: rest) with
    | some r => removeUrlsGo fuel r
    | none => c :: removeUrlsGo fuel rest

def removeUrls (l : List Char) : List Char := removeUrlsGo l.length l

/-- `re.sub(r"#(\S+)", r"\1", text)` (and the same for `@`): a tag character
followed directly by a non-whitespace run is deleted, the run is kept
verbatim, and scanning resumes after the run.  A tag not followed by a
non-whitespace character does not match. -/
def stripTagGo (tag : Char) : Nat → List Char → List Char
  | 0, l => l
  | _ + 1, [] => []
  | fuel + 1, c :: rest =>
    if c == tag then
      let run := rest.takeWhile (fun d => !pyIsSpace d)
      if run.isEmpty then c :: stripTagGo tag fuel rest
      else run ++ stripTagGo tag fuel (rest.drop run.length)
    else c :: stripTagGo tag fuel rest

def stripTag (tag : Char) (l : List Char) : List Char := stripTagGo tag l.length l

/-- `re.sub(r"\s+", " ", text)`: every maximal whitespace run becomes one
space. -/
def collapseSpacesGo : Nat → List Char → List Char
  | 0, l => l
  | _ + 1, [] => []
  | fuel + 1, c :: rest =>
    if pyIsSpace c then ' ' :: collapseSpacesGo fuel (rest.dropWhile pyIsSpace)
    else c :: collapseSpacesGo fuel rest

def collapseSpaces (l : List Char) : List Char := collapseSpacesGo l.length l

/-- Removal of a trailing whitespace run, for `str.strip()`. -/
def dropTrailingWs : List Char → List Char
  | [] => []
  | c :: rest =>
    let r := dropTrailingWs rest
    if r.isEmpty && pyIsSpace c then [] else c :: r

/-- `str.strip()`: drop leading and trailing whitespace. -/
def pyStripList (l : List Char) : List Char := dropTrailingWs (l.dropWhile pyIsSpace)

/-- `str.strip()` on strings. -/
def pyStripStr (s : String) : String := (pyStripList s.toList).asString

/-- `str.lower()`, modelled characterwise on the ASCII range. -/
def pyLowerList (l : List Char) : List Char := l.map Char.toLower

/-- `str.lower()` on strings. -/
def pyLowerStr (s : String) : String := (pyLowerList s.toList).asString

/-- The cleaning pipeline of `clean_comment_text` (`utils/sentiment.py`
lines 97-134) on the text component: lowercase, remove URLs, unwrap
hashtags and mentions, replace non-emoji punctuation by spaces, collapse
whitespace runs, and strip the ends. -/
def cleanList (emojiData : Char → Bool) (t : List Char) : List Char :=
  pyStripList (collapseSpaces (stripPunct emojiData
    (stripTag '@' (stripTag '#' (removeUrls (pyLowerList t))))))

/-- Whether a character list does not start with a whitespace character. -/
def headNotSpace : List Char → Bool
  | [] => true
  | d :: _ => !pyIsSpace d

/-- Whitespace normal form: every whitespace character is a space and no
whitespace character is followed by another.  The output of
`collapseSpaces` satisfies this, and `collapseSpaces` fixes every list
satisfying it. -/
def wsOK : List Char → Bool
  | [] => true
  | c :: rest => (!pyIsSpace c || (c == ' ' && headNotSpace rest)) && wsOK rest

/-- A Python value as stored in a comment dictionary. -/
inductive Val where
  | str (s : String)
  | num (q : Rat)
  | vlist (l : List Val)
  | vdict (l : List (String × Val))
  | pyNone

/-- A comment dictionary: insertion-ordered keyed entries. -/
abbrev Cmt := List (String × Val)

/-- `d.get(k, default)`. -/
def getVal (c : Cmt) (k : String) (d : Val) : Val := (c.lookup k).getD d

/-- `d[k] = v`: overwrite in place if the key exists, append otherwise. -/
def setKey : Cmt → String → Val → Cmt
  | [], k, v => [(k, v)]
  | (k', v') :: rest, k, v =>
    if k' == k then (k, v) :: rest else (k', v') :: setKey rest k v

/-- `clean_comment_text`: a non-string argument yields `("", [])`; a string
is cleaned, and every character that is an `emoji.EMOJI_DATA` key is
extracted (before cleaning) as a one-character string. -/
def cleanCommentText (emojiData : Char → Bool) : Val → String × List String
  | .str s =>
    ((cleanList emojiData s.toList).asString,
      (s.toList.filter emojiData).map Char.toString)
  | _ => ("", [])

/-- Which of the two scoring strategies a call went through. -/
inductive Strategy where
  | lexical
  | model
deriving DecidableEq

/-- Exceptions the text scorer can raise on non-string input. -/
inductive PyErr where
  | attributeError
  | typeError
deriving DecidableEq

/-- Raw output of the transformer pipeline collaborator. -/
structure PipeOut where
  label : String
  score : Rat

/-- The `{label, score}` dictionary returned by `_analyze_text_sentiment`. -/
structure SentResult where
  label : String
  score : Rat
deriving DecidableEq

/-- An argument that is either a Python string or some non-string value. -/
inductive TextInput where
  | str (s : String)
  | nonStr

/-- The `label_mapping` table of `_analyze_text_sentiment`. -/
def labelMapping : List (String × String) :=
  [("POSITIVE", "positive"), ("NEGATIVE", "negative"), ("NEUTRAL", "neutral"),
   ("1", "positive"), ("0", "negative")]

/-- The TextBlob fallback branch: polarity above 0.1 is positive, below
-0.1 negative, otherwise neutral with score 0.  The polarity heuristic is
an external collaborator, passed as a parameter. -/
def textBlobFallback (polarity : String → Rat) (text : String) : SentResult :=
  let p := polarity text
  if p > 1 / 10 then ⟨"positive", p⟩
  else if p < -(1 / 10) then ⟨"negative", p⟩
  else ⟨"neutral", 0⟩

/-- The transformer branch: normalize the label through `label_mapping` and
lowercase it, then demote a positive or negative call with confidence below
0.6 to neutral. -/
def pipelineBranch (pl : String → PipeOut) (text : String) : SentResult :=
  let result := pl text
  let label0 := ((labelMapping.lookup result.label).getD result.label).toLower
  let label :=
    if label0 == "positive" && result.score < 3 / 5 then "neutral"
    else if label0 == "negative" && result.score < 3 / 5 then "neutral"
    else label0
  ⟨label, result.score⟩

/-- `_analyze_text_sentiment` on a string argument: the fallback runs when
no pipeline is loaded or the stripped text is empty, the pipeline branch
otherwise.  The strategy component records which branch executed. -/
def analyzeTextSentimentStr (pipeline : Option (String → PipeOut))
    (polarity : String → Rat) (text : String) : SentResult × Strategy :=
  match pipeline with
  | none => (textBlobFallback polarity text, .lexical)
  | some pl =>
    if pyStripStr text == "" then (textBlobFallback polarity text, .lexical)
    else (pipelineBranch pl text, .model)

/-- `_analyze_text_sentiment` on an arbitrary argument: with a loaded
pipeline, `text.strip()` on a non-string raises `AttributeError`; without
one, `TextBlob(text)` raises `TypeError`. -/
def analyzeTextSentiment (pipeline : Option (String → PipeOut))
    (polarity : String → Rat) : TextInput → Except PyErr (SentResult × Strategy)
  | .str s => .ok (analyzeTextSentimentStr pipeline polarity s)
  | .nonStr => .error (match pipeline with
      | some _ => .attributeError
      | none => .typeError)

/-- The `EMOJI_SENTIMENT_MAP` table (`utils/sentiment.py` lines 39-44).
The red-heart key is a two-code-point string; all others are single
characters. -/
def EMOJI_SENTIMENT_MAP : List (String × Rat) :=
  [("😊", 1), ("😃", 1), ("😄", 1), ("😁", 1), ("😆", 1), ("😍", 1), ("🥰", 1),
   ("😘", 1), ("👍", 1), ("❤️", 1),
   ("🙂", 7 / 10), ("😌", 7 / 10), ("😉", 7 / 10), ("🙃", 1 / 2),
   ("😐", 0), ("😑", 0), ("😶", 0), ("🤔", 0),
   ("😕", -(3 / 10)), ("😟", -(1 / 2)), ("😔", -(1 / 2)),
   ("😞", -(7 / 10)), ("😒", -(7 / 10)), ("😣", -(4 / 5)), ("😖", -(4 / 5)),
   ("😡", -1), ("😠", -1), ("😤", -1), ("😭", -1), ("😢", -1), ("😩", -1),
   ("👎", -1), ("💔", -1)]

/-- `analyze_emoji_sentiment`: accumulate weight and count over the emojis
found in the table, and return the average, or 0 when the input is empty or
nothing matched. -/
def analyzeEmojiSentiment (emojis : List String) : Rat :=
  if emojis.isEmpty then 0
  else
    let acc := emojis.foldl
      (fun (a : Rat × Nat) e =>
        match EMOJI_SENTIMENT_MAP.lookup e with
        | some w => (a.1 + w, a.2 + 1)
        | none => a)
      (0, 0)
    if 0 < acc.2 then acc.1 / (acc.2 : Rat) else 0

/-- Substring test, for Python's `in` on strings. -/
def isSubstrList (pat : List Char) : List Char → Bool
  | [] => pat.isEmpty
  | c :: rest => pat.isPrefixOf (c :: rest) || isSubstrList pat rest

/-- `pat in s` on strings. -/
def strContains (pat s : String) : Bool := isSubstrList pat.toList s.toList

/-- The `COMMON_ASPECTS` table (`utils/sentiment.py` lines 47-54). -/
def COMMON_ASPECTS : List (String × List String) :=
  [("content", ["video", "content", "videos", "channel", "episode", "vlog", "series"]),
   ("quality", ["quality", "resolution", "hd", "4k", "footage", "production",
                "editing", "edited"]),
   ("audio", ["audio", "sound", "volume", "mic", "voice", "music", "background",
              "noise"]),
   ("presentation", ["presentation", "speaking", "talk", "speech", "presenter",
                     "host", "explained", "explaining", "explanation"]),
   ("information", ["information", "informative", "learn", "learned",
                    "educational", "knowledge", "useful", "helpful"]),
   ("length", ["length", "duration", "long", "short", "longer", "shorter", "time"])]

/-- `identify_aspects`: lowercase the text, then for each aspect keep the
terms that occur among the tokens or as a substring; aspects with no match
are omitted.  The word tokenizer is an external collaborator. -/
def identifyAspects (tokenize : String → List String) (text : String) :
    List (String × List String) :=
  let lt := pyLowerStr text
  let words := tokenize lt
  (COMMON_ASPECTS.map (fun p =>
    (p.1, p.2.filter (fun term => words.contains term || strContains term lt)))).filter
    (fun p => !p.2.isEmpty)

/-- The emoji weight of `analyze_comment`: `min(0.5, len(emojis) * 0.1)`. -/
def emojiWeight (emojis : List String) : Rat :=
  min (1 / 2) ((emojis.length : Rat) * (1 / 10))

/-- The combined score of `analyze_comment`: the text score alone when no
emoji was extracted, the emoji-weighted blend otherwise. -/
def combinedScore (textScore emojiScore : Rat) (emojis : List String) : Rat :=
  if emojis.isEmpty then textScore
  else (1 - emojiWeight emojis) * textScore + emojiWeight emojis * emojiScore

/-- The final label thresholds of `analyze_comment`. -/
def finalSentimentLabel (c : Rat) : String :=
  if c > 1 / 5 then "positive"
  else if c < -(1 / 5) then "negative"
  else "neutral"

/-- `analyze_comment` (`utils/sentiment.py` lines 234-283): clean the text,
score text and emojis, detect aspects, blend, and store the results under
the `sentiment` and `sentiment_data` keys of the comment dictionary. -/
def analyzeComment (pipeline : Option (String → PipeOut)) (polarity : String → Rat)
    (emojiData : Char → Bool) (tokenize : String → List String) (comment : Cmt) :
    Cmt :=
  let text := getVal comment "text" (.str "")
  let ce := cleanCommentText emojiData text
  let ts := (analyzeTextSentimentStr pipeline polarity ce.1).1
  let emojiScore := analyzeEmojiSentiment ce.2
  let aspects := identifyAspects tokenize ce.1
  let combined := combinedScore ts.score emojiScore ce.2
  let label := finalSentimentLabel combined
  setKey (setKey comment "sentiment" (.str label)) "sentiment_data"
    (.vdict
      [("text_sentiment", .vdict [("label", .str ts.label), ("score", .num ts.score)]),
       ("emoji_sentiment", .num emojiScore),
       ("combined_score", .num combined),
       ("aspects", .vdict (aspects.map (fun p => (p.1, .vlist (p.2.map .str)))))])

/-- The `TOPIC_KEYWORDS` table (`topic_analysis.py` lines 22-28). -/
def TOPIC_KEYWORDS : List (String × List String) :=
  [("tutorial", ["how to", "tutorial", "guide", "learn", "step by step",
                 "techniques"]),
   ("review", ["review", "opinion", "thoughts on", "what I think", "assessment"]),
   ("question", ["question", "wondering", "can you", "how do you", "?"]),
   ("suggestion", ["suggestion", "recommend", "should make", "would like to see",
                   "please make"]),
   ("technical", ["technical", "software", "hardware", "settings",
                  "configuration", "setup"])]

/-- Whether a comment's text matches a topic keyword list: a missing `text`
key defaults to the empty string, a non-string text is skipped, and a
keyword matches as a substring of the lowercased text. -/
def commentMatchesTopic (kws : List String) (c : Cmt) : Bool :=
  match getVal c "text" (.str "") with
  | .str s => kws.any (fun k => strContains k (pyLowerStr s))
  | _ => false

/-- Whether a comment matches none of the five topic keyword lists. -/
def matchesNoTopic (c : Cmt) : Bool :=
  TOPIC_KEYWORDS.all (fun p => !commentMatchesTopic p.2 c)

/-- `extract_topics` (`topic_analysis.py` lines 30-71): empty input yields
the `No Data` placeholder; otherwise each topic counts the comments whose
text contains one of its keywords (the source's per-comment increment loop,
reassociated per topic), and an all-zero histogram over a non-empty input
gains a synthetic `other: 1` entry. -/
def extractTopics (comments : List Cmt) : List (String × Nat) :=
  if comments.isEmpty then [("No Data", 1)]
  else
    let topics := TOPIC_KEYWORDS.map
      (fun p => (p.1, comments.countP (commentMatchesTopic p.2)))
    if topics.all (fun p => p.2 == 0) then topics ++ [("other", 1)] else topics

/-- The `request_patterns` list (`topic_analysis.py` lines 92-101). -/
def requestPatterns : List String :=
  ["can you make", "would like to see", "please make", "should do",
   "next video", "tutorial on", "comparison", "review of"]

/-- `str.split()`: maximal non-whitespace runs. -/
def pySplitWsGo : Nat → List Char → List (List Char)
  | 0, _ => []
  | _ + 1, [] => []
  | fuel + 1, c :: rest =>
    if pyIsSpace c then pySplitWsGo fuel rest
    else
      let run := (c :: rest).takeWhile (fun d => !pyIsSpace d)
      run :: pySplitWsGo fuel ((c :: rest).drop run.length)

def pySplitWs (l : List Char) : List (List Char) := pySplitWsGo l.length l

/-- Sentence-ending punctuation of the truncation regex `[.!?].*$`. -/
def isSentEnd (c : Char) : Bool := c == '.' || c == '!' || c == '?'

/-- Whether `.*$` can complete a match begun just before `rest`: `.` does
not cross newlines and `$` anchors at the end of the string or just before
a final newline, so the match completes exactly when `rest` has no newline,
or its only newline is its last character. -/
def dollarOk (rest : List Char) : Bool :=
  !(rest.contains '\n') ||
    (rest.getLastD ' ' == '\n' && !(rest.dropLast.contains '\n'))

/-- `re.sub(r"[.!?].*$", "", s)`: delete from the leftmost sentence-ending
character at which the pattern matches through the end, keeping a final
newline when `$` anchored in front of it; positions where a newline blocks
the anchor are left untouched. -/
def pySubTruncPunct : List Char → List Char
  | [] => []
  | c :: rest =>
    if isSentEnd c && dollarOk rest then
      if rest.contains '\n' then ['\n'] else []
    else c :: pySubTruncPunct rest

/-- `s[0].upper() + s[1:]`, on the ASCII range. -/
def capitalizeFirst : List Char → List Char
  | [] => []
  | c :: rest => c.toUpper :: rest

/-- `text.find(pat)` followed by slicing off everything through the end of
the first occurrence; `none` when the pattern does not occur. -/
def afterFirst (pat : List Char) : List Char → Option (List Char)
  | [] => if pat.isEmpty then some [] else none
  | c :: rest =>
    if pat.isPrefixOf (c :: rest) then some ((c :: rest).drop pat.length)
    else afterFirst pat rest

/-- The per-pattern extraction step of `generate_content_ideas` (lines
122-143): slice after the first occurrence, strip, truncate with the
`[.!?].*$` substitution, strip again, keep only candidates longer than 3
characters with at least 2 words, and capitalize the first letter. -/
def mineIdea (pat : List Char) (text : List Char) : Option (List Char) :=
  match afterFirst pat text with
  | none => none
  | some tail =>
    let sug := pyStripList (pySubTruncPunct (pyStripList tail))
    if 3 < sug.length ∧ 2 ≤ (pySplitWs sug).length then some (capitalizeFirst sug)
    else none

/-- Digit-run value for `int(str)`. -/
def digitsVal : List Char → Option Nat
  | [] => none
  | ds =>
    if ds.all (·.isDigit) then
      some (ds.foldl (fun n d => n * 10 + (d.toNat - 48)) 0)
    else none

/-- `int(s)` on a string: strip whitespace, optional sign, digits; `none`
models `ValueError`. -/
def pyIntOfString (s : String) : Option Int :=
  match pyStripList s.toList with
  | '-' :: ds => (digitsVal ds).map (fun n => -(n : Int))
  | '+' :: ds => (digitsVal ds).map (fun n => (n : Int))
  | ds => (digitsVal ds).map (fun n => (n : Int))

/-- The likes coercion of `generate_content_ideas` (lines 113-120): numbers
pass through, strings go through `int()` with fallback 0, anything else
falls back to 0. -/
def coerceLikes : Val → Rat
  | .num q => q
  | .str s =>
    match pyIntOfString s with
    | some n => (n : Rat)
    | none => 0
  | _ => 0

/-- One mined content-idea record. -/
structure IdeaRec where
  idea : String
  likes : Rat
  source : Val

/-- The candidate records one comment contributes, in pattern order:
comments without a string `text` are skipped, the text is lowercased once,
and every matching pattern yields one record carrying the coerced likes and
the comment's id. -/
def candidatesOfComment (c : Cmt) : List IdeaRec :=
  match c.lookup "text" with
  | some (.str s) =>
    let text := pyLowerStr s
    let likes := coerceLikes (getVal c "likes" (.num 0))
    requestPatterns.filterMap (fun pat =>
      (mineIdea pat.toList text.toList).map (fun idea =>
        ⟨idea.asString, likes, getVal c "id" (.str "")⟩))
  | _ => []

/-- All candidate records over a comment list, in comment order. -/
def contentIdeaCandidates (comments : List Cmt) : List IdeaRec :=
  (comments.map candidatesOfComment).flatten

/-- Stable insertion into a likes-descending list: a record is placed
before the first record with strictly fewer likes, so records with equal
likes keep their relative order. -/
def insertByLikes (r : IdeaRec) : List IdeaRec → List IdeaRec
  | [] => [r]
  | x :: xs => if x.likes < r.likes then r :: x :: xs else x :: insertByLikes r xs

/-- `sort_values('likes', ascending=False)`, modelled as a stable insertion
sort (pandas leaves the order of ties unspecified). -/
def sortByLikesDesc : List IdeaRec → List IdeaRec
  | [] => []
  | r :: rest => insertByLikes r (sortByLikesDesc rest)

/-- `drop_duplicates(subset=['idea'])`: keep the first record of each idea
text. -/
def dedupByIdeaGo : List String → List IdeaRec → List IdeaRec
  | _, [] => []
  | seen, r :: rest =>
    if seen.contains r.idea then dedupByIdeaGo seen rest
    else r :: dedupByIdeaGo (r.idea :: seen) rest

/-- `generate_content_ideas` (`topic_analysis.py` lines 73-178): placeholder
records for empty input or no surviving candidate, otherwise sort by likes
descending (a stable sort models the unspecified tie order of
`sort_values`), drop duplicate idea texts and truncate. -/
def generateContentIdeas (comments : List Cmt) (maxIdeas : Nat) : List IdeaRec :=
  if comments.isEmpty then
    [⟨"No comments available for content ideas", 0, .str ""⟩]
  else
    let ideas := contentIdeaCandidates comments
    if ideas.isEmpty then [⟨"No content ideas found in comments", 0, .str ""⟩]
    else (dedupByIdeaGo [] (sortByLikesDesc ideas)).take maxIdeas

/-- Python's `round` to the nearest integer: half-way cases go to the even
neighbour. -/
def pyRoundHalfEven (x : Rat) : Int :=
  let f := ⌊x⌋
  let r := x - (f : Rat)
  if r < 1 / 2 then f
  else if 1 / 2 < r then f + 1
  else if f % 2 = 0 then f else f + 1

/-- `round(x, 1)`. -/
def pyRound1 (x : Rat) : Rat := (pyRoundHalfEven (x * 10) : Rat) / 10

/-- The `basic_stats` aggregate of `analyze_video` (`api.py` lines
306-339). -/
structure BasicStats where
  totalComments : Nat
  totalLikes : Rat
  totalReplies : Rat
  engagementRate : Rat

/-- The `basic_stats` computation over a collection whose likes and reply
counts were already coerced to numbers: sums and
`round(total_likes / total_comments, 1)` guarded against an empty
collection. -/
def basicStats (comments : List (Rat × Rat)) : BasicStats :=
  let totalComments := comments.length
  let totalLikes := (comments.map Prod.fst).sum
  let totalReplies := (comments.map Prod.snd).sum
  { totalComments := totalComments
    totalLikes := totalLikes
    totalReplies := totalReplies
    engagementRate :=
      if totalComments ≠ 0 then pyRound1 (totalLikes / (totalComments : Rat))
      else 0 }

/-! ### Theorems -/

@[simp] theorem exceptMap_ok {ε α β : Type} (f : α → β) (a : α) :
    (Except.ok a : Except ε α).map f = .ok (f a) := rfl

@[simp] theorem exceptMap_error {ε α β : Type} (f : α → β) (e : ε) :
    (Except.error e : Except ε α).map f = .error e := rfl

theorem fetchAllLoopApi_none_ok (pages : List (PageOutcome α)) :
    ∀ (acc : List α), acc ≠ [] →
      ∃ t, fetchAllLoopApi none acc pages = .ok (acc ++ t) := by
  induction pages with
  | nil => exact fun acc _ => ⟨[], by simp [fetchAllLoopApi]⟩
  | cons page rest ih =>
    intro acc hacc
    match page with
    | .error e =>
      refine ⟨[], ?_⟩
      simp [fetchAllLoopApi, List.isEmpty_iff, hacc]
    | .ok (pc, tok) =>
      by_cases hpc : pc.isEmpty
      · exact ⟨[], by simp [fetchAllLoopApi, hpc]⟩
      · by_cases htok : tokenTruthy tok
        · obtain ⟨t, ht⟩ := ih (acc ++ pc) (by
            simp only [List.isEmpty_iff] at hpc
            simp [hpc])
          refine ⟨pc ++ t, ?_⟩
          simp [fetchAllLoopApi, hpc, htok, ht]
        · exact ⟨pc, by simp [fetchAllLoopApi, hpc, htok]⟩

theorem fetchAllLoopApi_take (m : Nat) (pages : List (PageOutcome α)) :
    ∀ (acc : List α), acc.length ≤ m →
      fetchAllLoopApi (some m) acc pages =
        (fetchAllLoopApi none acc pages).map (·.take m) := by
  induction pages with
  | nil =>
    intro acc hlen
    simp [fetchAllLoopApi, List.take_of_length_le hlen]
  | cons page rest ih =>
    intro acc hlen
    match page with
    | .error e =>
      by_cases hacc : acc.isEmpty
      · simp [fetchAllLoopApi, hacc]
      · simp [fetchAllLoopApi, hacc, List.take_of_length_le hlen]
    | .ok (pc, tok) =>
      by_cases hpc : pc.isEmpty
      · simp [fetchAllLoopApi, hpc, List.take_of_length_le hlen]
      · rw [Bool.not_eq_true] at hpc
        have hpcne : pc ≠ [] := by
          intro h
          simp [h] at hpc
        by_cases hm : m ≤ (acc ++ pc).length
        · have hm' : m ≤ acc.length + pc.length := by simpa using hm
          by_cases htok : tokenTruthy tok
          · obtain ⟨t, ht⟩ := fetchAllLoopApi_none_ok rest (acc ++ pc) (by simp [hpcne])
            simp only [fetchAllLoopApi, hpc, Bool.false_eq_true, if_false, htok,
              if_true, ht, exceptMap_ok, List.length_append, hm', if_pos hm']
            rw [List.take_append_of_le_length hm]
          · rw [Bool.not_eq_true] at htok
            simp [fetchAllLoopApi, hpc, hm, htok]
            omega
        · have hlt : (acc ++ pc).length ≤ m := Nat.le_of_not_le hm
          by_cases htok : tokenTruthy tok
          · simp only [fetchAllLoopApi, hpc, Bool.false_eq_true, if_false, hm,
              if_neg hm, htok, if_true]
            exact ih (acc ++ pc) hlt
          · rw [Bool.not_eq_true] at htok
            simp [fetchAllLoopApi, hpc, hm, htok, List.take_of_length_le hlt]

theorem fetchAllLoopApi_ok_prefix (pages : List (PageOutcome α)) :
    ∀ (maxR : Option Nat) (acc l : List α),
      fetchAllLoopApi maxR acc pages = .ok l →
        l <+: acc ++ (pages.filterMap okPageComments).flatten := by
  induction pages with
  | nil =>
    intro maxR acc l h
    simp only [fetchAllLoopApi, Except.ok.injEq] at h
    simp [← h]
  | cons page rest ih =>
    intro maxR acc l h
    match page with
    | .error e =>
      by_cases hacc : acc.isEmpty
      · simp [fetchAllLoopApi, hacc] at h
      · rw [Bool.not_eq_true] at hacc
        simp only [fetchAllLoopApi, hacc, Bool.false_eq_true, if_false,
          Except.ok.injEq] at h
        subst h
        simp only [List.filterMap_cons, okPageComments]
        exact List.prefix_append _ _
    | .ok (pc, tok) =>
      have hflat : (((Except.ok (pc, tok) : PageOutcome α) :: rest).filterMap
          okPageComments).flatten = pc ++ (rest.filterMap okPageComments).flatten := by
        simp [okPageComments]
      rw [hflat, ← List.append_assoc]
      by_cases hpc : pc.isEmpty
      · simp only [fetchAllLoopApi, hpc, if_true, Except.ok.injEq] at h
        subst h
        rw [List.append_assoc]
        exact List.prefix_append _ _
      · rw [Bool.not_eq_true] at hpc
        simp only [fetchAllLoopApi, hpc, Bool.false_eq_true, if_false] at h
        match maxR with
        | some m =>
          by_cases hm : m ≤ (acc ++ pc).length
          · simp only [if_pos hm, Except.ok.injEq] at h
            subst h
            exact (List.take_prefix m (acc ++ pc)).trans (List.prefix_append _ _)
          · simp only [if_neg hm] at h
            by_cases htok : tokenTruthy tok
            · simp only [htok, if_true] at h
              exact ih (some m) (acc ++ pc) l h
            · rw [Bool.not_eq_true] at htok
              simp only [htok, Bool.false_eq_true, if_false, Except.ok.injEq] at h
              subst h
              exact List.prefix_append _ _
        | none =>
          by_cases htok : tokenTruthy tok
          · simp only [htok, if_true] at h
            exact ih none (acc ++ pc) l h
          · rw [Bool.not_eq_true] at htok
            simp only [htok, Bool.false_eq_true, if_false, Except.ok.injEq] at h
            subst h
            exact List.prefix_append _ _

/-- C1: `fetch_all_comments` appends pages in order (the successful result is
a prefix of the concatenation of the upstream pages), a set `max_results`
yields exactly the truncation of the unlimited run, and on pages of 100, 100
and 30 comments with `max_results = 150` it returns page 1 followed by the
first 50 comments of page 2. -/
theorem fetch_all_comments_pagination {α : Type} :
    (∀ (pages : List (PageOutcome α)) (m : Nat),
        fetchAllCommentsApi pages (some m) =
          (fetchAllCommentsApi pages none).map (·.take m))
  ∧ (∀ (pages : List (PageOutcome α)) (maxR : Option Nat) (l : List α),
        fetchAllCommentsApi pages maxR = .ok l →
          l <+: (pages.filterMap okPageComments).flatten)
  ∧ (∀ (p1 p2 p3 : List α) (t1 t2 : String),
        p1.length = 100 → p2.length = 100 → p3.length = 30 →
        t1 ≠ "" → t2 ≠ "" →
        fetchAllCommentsApi
            [.ok (p1, some t1), .ok (p2, some t2), .ok (p3, none)] (some 150) =
          .ok (p1 ++ p2.take 50)) := by
  refine ⟨?_, ?_, ?_⟩
  · intro pages m
    exact fetchAllLoopApi_take m pages [] (by simp)
  · intro pages maxR l h
    simpa using fetchAllLoopApi_ok_prefix pages maxR [] l h
  · intro p1 p2 p3 t1 t2 h1 h2 h3 ht1 ht2
    have hp1 : p1.isEmpty = false := by
      simp [List.isEmpty_iff, List.ne_nil_of_length_pos (by omega : 0 < p1.length)]
    have hp2 : p2.isEmpty = false := by
      simp [List.isEmpty_iff, List.ne_nil_of_length_pos (by omega : 0 < p2.length)]
    have htok1 : tokenTruthy (some t1) = true := by
      simp [tokenTruthy, ht1]
    simp only [fetchAllCommentsApi, fetchAllLoopApi, hp1, Bool.false_eq_true, if_false,
      List.nil_append, h1]
    rw [if_neg (by omega), if_pos htok1]
    simp only [fetchAllLoopApi, hp2, Bool.false_eq_true, if_false]
    rw [if_pos (by simp [h1, h2])]
    have : (150 : Nat) = p1.length + 50 := by omega
    rw [this, List.take_append]

/-- Witness for the C1 theorem at a concrete pagination run. -/
theorem fetch_all_comments_pagination_witness :
    fetchAllCommentsApi
        [.ok (List.replicate 100 0, some "t"), .ok (List.replicate 100 1, some "t"),
         .ok (List.replicate 30 2, none)] (some 150) =
      .ok (List.replicate 100 0 ++ (List.replicate 100 1).take 50) :=
  fetch_all_comments_pagination.2.2 _ _ _ "t" "t"
    (by simp) (by simp) (by simp) (by decide) (by decide)


/-- C2 (amended): in `api.py`, an exception during a page request returns the
already-accumulated comments when at least one was accumulated and propagates
otherwise; the `utils/youtube_api.py` variant instead wraps the exception in
a `ValueError` and raises it unconditionally, discarding accumulated
comments.  The last conjunct is the spec's test run: page 1 succeeds and
page 2 raises, and the `api.py` function returns page 1. -/
theorem fetch_all_comments_partial_failure {α : Type} :
    (∀ (maxR : Option Nat) (acc : List α) (e : String) (rest : List (PageOutcome α)),
        (acc ≠ [] → fetchAllLoopApi maxR acc (.error e :: rest) = .ok acc)
      ∧ fetchAllLoopApi maxR [] (.error e :: rest) = .error e
      ∧ fetchAllLoopYt maxR acc (.error e :: rest) =
          .error ("Error fetching comments: " ++ e))
  ∧ (∀ (p1 : List α) (t e : String), p1 ≠ [] → t ≠ "" →
        fetchAllCommentsApi [.ok (p1, some t), .error e] none = .ok p1) := by
  constructor
  · intro maxR acc e rest
    refine ⟨fun hacc => ?_, ?_, rfl⟩
    · have : acc.isEmpty = false := by simp [hacc]
      simp [fetchAllLoopApi, this]
    · simp [fetchAllLoopApi]
  · intro p1 t e hp1 ht
    have hp1e : p1.isEmpty = false := by simp [hp1]
    have htok : tokenTruthy (some t) = true := by simp [tokenTruthy, ht]
    simp [fetchAllCommentsApi, fetchAllLoopApi, hp1e, htok, hp1]

/-- Witness for the C2 theorem: a concrete run where page 1 yields one
comment and page 2 raises, and the `api.py` loop returns the partial
result. -/
theorem fetch_all_comments_partial_failure_witness :
    fetchAllCommentsApi [.ok ([0], some "t"), .error "boom"] none = .ok [0] :=
  fetch_all_comments_partial_failure.2 [0] "t" "boom" (by decide) (by decide)

/-- Counterexample to C2 as stated: the `utils/youtube_api.py`
`fetch_all_comments` raises a wrapped `ValueError` on a mid-loop page
failure even though one comment had already been accumulated, instead of
returning the accumulated comments. -/
theorem fetch_all_comments_partial_failure_counterexample :
    fetchAllCommentsYt [.ok ([0], some "t"), .error "boom"] none =
        .error ("Error fetching comments: " ++ "boom")
      ∧ fetchAllCommentsYt [.ok ([0], some "t"), .error "boom"] none ≠ .ok [0] := by
  refine ⟨rfl, fun h => ?_⟩
  rw [show fetchAllCommentsYt [.ok ([0], some "t"), .error "boom"] none =
    .error ("Error fetching comments: " ++ "boom") from rfl] at h
  exact Except.noConfusion h

/-- C3 (amended): an empty or whitespace-only string input yields
`{label: neutral, score: 0.0}`, but through the lexical TextBlob fallback
branch (whose polarity on blank text is 0) rather than by skipping both
strategies, and a non-string input raises an exception (`AttributeError`
with a loaded pipeline, `TypeError` in the fallback) instead of returning a
result. -/
theorem analyze_text_sentiment_blank_input :
    (∀ (pipeline : Option (String → PipeOut)) (polarity : String → Rat) (s : String),
        pyStripStr s = "" → polarity s = 0 →
          analyzeTextSentiment pipeline polarity (.str s) =
            .ok (⟨"neutral", 0⟩, .lexical))
  ∧ (∀ (pl : String → PipeOut) (polarity : String → Rat),
        analyzeTextSentiment (some pl) polarity .nonStr = .error .attributeError)
  ∧ (∀ (polarity : String → Rat),
        analyzeTextSentiment none polarity .nonStr = .error .typeError) := by
  refine ⟨?_, fun _ _ => rfl, fun _ => rfl⟩
  intro pipeline polarity s hs hp
  have hfb : textBlobFallback polarity s = ⟨"neutral", 0⟩ := by
    rw [textBlobFallback, hp]
    norm_num
  match pipeline with
  | none =>
    simp [analyzeTextSentiment, analyzeTextSentimentStr, hfb]
  | some pl =>
    simp [analyzeTextSentiment, analyzeTextSentimentStr, hs, hfb]

/-- Witness for the C3 theorem on a whitespace-only input. -/
theorem analyze_text_sentiment_blank_input_witness :
    analyzeTextSentiment none (fun _ => 0) (.str "  ") =
      .ok (⟨"neutral", 0⟩, .lexical) :=
  analyze_text_sentiment_blank_input.1 none (fun _ => 0) "  " rfl rfl

/-- Counterexample to C3 as stated: with a loaded pipeline, non-string
input raises `AttributeError` instead of returning neutral, and the empty
string is scored through the lexical strategy rather than through neither. -/
theorem analyze_text_sentiment_blank_input_counterexample :
    analyzeTextSentiment (some (fun _ => ⟨"POSITIVE", 1⟩)) (fun _ => 0) .nonStr =
        .error .attributeError
      ∧ (analyzeTextSentiment (some (fun _ => ⟨"POSITIVE", 1⟩)) (fun _ => 0)
            (.str "")).map Prod.snd = .ok .lexical :=
  ⟨rfl, rfl⟩

/-- C6: the sentiment combiner realizes
`combined = (1 - w) * text + w * emoji` with
`w = min(0.5, emoji_count * 0.1)` (the emoji-free branch agrees because the
weight is then 0), and the final label is positive exactly above 0.2,
negative exactly below -0.2, neutral exactly in between. -/
theorem sentiment_combiner_formula :
    (∀ (ts es : Rat) (emojis : List String),
        combinedScore ts es emojis =
          (1 - min (1 / 2) ((emojis.length : Rat) * (1 / 10))) * ts +
            min (1 / 2) ((emojis.length : Rat) * (1 / 10)) * es)
  ∧ ∀ (c : Rat),
      (finalSentimentLabel c = "positive" ↔ c > 1 / 5)
      ∧ (finalSentimentLabel c = "negative" ↔ c < -(1 / 5))
      ∧ (finalSentimentLabel c = "neutral" ↔ -(1 / 5) ≤ c ∧ c ≤ 1 / 5) := by
  constructor
  · intro ts es emojis
    match emojis with
    | [] =>
      have h0 : min ((1 : Rat) / 2) ((([] : List String).length : Rat) * (1 / 10))
          = 0 := by
        norm_num
      simp only [combinedScore, List.isEmpty_nil, if_true, h0]
      ring
    | e :: rest =>
      simp [combinedScore, emojiWeight]
  · intro c
    unfold finalSentimentLabel
    by_cases hpos : c > 1 / 5
    · rw [if_pos hpos]
      exact ⟨⟨fun _ => hpos, fun _ => rfl⟩,
        ⟨fun h => absurd h (by decide), fun h => absurd hpos (by linarith)⟩,
        ⟨fun h => absurd h (by decide), fun h => absurd hpos (by linarith [h.2])⟩⟩
    · by_cases hneg : c < -(1 / 5)
      · rw [if_neg hpos, if_pos hneg]
        exact ⟨⟨fun h => absurd h (by decide), fun h => absurd h hpos⟩,
          ⟨fun _ => hneg, fun _ => rfl⟩,
          ⟨fun h => absurd h (by decide), fun h => absurd hneg (by linarith [h.1])⟩⟩
      · rw [if_neg hpos, if_neg hneg]
        exact ⟨⟨fun h => absurd h (by decide), fun h => absurd h hpos⟩,
          ⟨fun h => absurd h (by decide), fun h => absurd h hneg⟩,
          ⟨fun _ => ⟨by linarith, by linarith⟩, fun _ => rfl⟩⟩

/-- C9: the engagement rate is 0 on an empty collection, equals
`round(total_likes / total_comments, 1)` on a non-empty one, and on three
comments with likes 10, 5 and 20 it is 11.7. -/
theorem engagement_rate_formula :
    (basicStats []).engagementRate = 0
  ∧ (∀ (cs : List (Rat × Rat)), cs ≠ [] →
      (basicStats cs).engagementRate =
        pyRound1 ((cs.map Prod.fst).sum / (cs.length : Rat)))
  ∧ (basicStats [(10, 0), (5, 0), (20, 0)]).engagementRate = 117 / 10 := by
  refine ⟨rfl, ?_, ?_⟩
  · intro cs hcs
    have hlen : cs.length ≠ 0 := by
      simpa [List.length_eq_zero] using hcs
    simp [basicStats, hlen]
  · have hsum : (([(10, 0), (5, 0), (20, 0)] : List (Rat × Rat)).map Prod.fst).sum
        = 35 := by
      norm_num
    have hfloor : ⌊(35 : Rat) / 3 * 10⌋ = 116 := by
      rw [Int.floor_eq_iff]
      norm_num
    simp only [basicStats, hsum]
    norm_num [pyRound1, pyRoundHalfEven, hfloor]

/-- Witness for the C9 theorem on a one-comment collection. -/
theorem engagement_rate_formula_witness :
    (basicStats [(7, 0)]).engagementRate =
      pyRound1 ((([(7, 0)] : List (Rat × Rat)).map Prod.fst).sum /
        (([(7, 0)] : List (Rat × Rat)).length : Rat)) :=
  engagement_rate_formula.2.1 [(7, 0)] (by decide)

theorem lookup_val_bounds (e : String) (w : Rat) :
    ∀ (m : List (String × Rat)), (∀ p ∈ m, -1 ≤ p.2 ∧ p.2 ≤ 1) →
      m.lookup e = some w → -1 ≤ w ∧ w ≤ 1 := by
  intro m
  induction m with
  | nil =>
    intro _ h
    simp [List.lookup] at h
  | cons p rest ih =>
    intro hm h
    rcases p with ⟨k, v⟩
    rw [List.lookup] at h
    by_cases hk : e == k
    · simp only [hk] at h
      have hv : v = w := Option.some.inj h
      exact hv ▸ hm (k, v) (List.mem_cons_self _ _)
    · rw [Bool.not_eq_true] at hk
      simp only [hk] at h
      exact ih (fun p hp => hm p (List.mem_cons_of_mem _ hp)) h

theorem emojiFold_spec (emojis : List String) :
    ∀ (t : Rat) (n : Nat),
      emojis.foldl
        (fun (a : Rat × Nat) e =>
          match EMOJI_SENTIMENT_MAP.lookup e with
          | some w => (a.1 + w, a.2 + 1)
          | none => a)
        (t, n)
      = (t + ((emojis.filter (fun e => (EMOJI_SENTIMENT_MAP.lookup e).isSome)).map
            (fun e => (EMOJI_SENTIMENT_MAP.lookup e).getD 0)).sum,
         n + (emojis.filter (fun e => (EMOJI_SENTIMENT_MAP.lookup e).isSome)).length) := by
  induction emojis with
  | nil =>
    intro t n
    simp
  | cons e rest ih =>
    intro t n
    rw [List.foldl_cons]
    cases hl : EMOJI_SENTIMENT_MAP.lookup e with
    | some w =>
      simp only [hl]
      rw [ih]
      simp only [List.filter_cons, hl, Option.isSome_some, if_true, List.map_cons,
        List.sum_cons, List.length_cons, Option.getD_some, Prod.mk.injEq]
      constructor
      · ring
      · omega
    | none =>
      simp only [hl]
      rw [ih]
      simp [List.filter_cons, hl]

theorem sum_bounds_of_forall (f : String → Rat) :
    ∀ (l : List String), (∀ x ∈ l, -1 ≤ f x ∧ f x ≤ 1) →
      -(l.length : Rat) ≤ (l.map f).sum ∧ (l.map f).sum ≤ (l.length : Rat) := by
  intro l
  induction l with
  | nil =>
    intro _
    simp
  | cons x rest ih =>
    intro h
    have hx := h x (by simp)
    have hr := ih (fun y hy => h y (List.mem_cons_of_mem _ hy))
    simp only [List.map_cons, List.sum_cons, List.length_cons]
    push_cast
    constructor
    · linarith [hx.1, hr.1]
    · linarith [hx.2, hr.2]

theorem emoji_map_bounded : ∀ p ∈ EMOJI_SENTIMENT_MAP, -1 ≤ p.2 ∧ p.2 ≤ 1 := by
  simp only [EMOJI_SENTIMENT_MAP, List.forall_mem_cons, List.not_mem_nil,
    false_implies, implies_true, and_true]
  norm_num

/-- C5: the emoji score is exactly the average of the table weights over
the emojis found in the table (emojis outside the table are ignored), lies
in [-1, 1], and is 0 for the empty list and whenever no emoji matched. -/
theorem analyze_emoji_sentiment_average :
    analyzeEmojiSentiment [] = 0
  ∧ ∀ (emojis : List String),
      (analyzeEmojiSentiment emojis =
        if (emojis.filter (fun e => (EMOJI_SENTIMENT_MAP.lookup e).isSome)).isEmpty
        then 0
        else ((emojis.filter
              (fun e => (EMOJI_SENTIMENT_MAP.lookup e).isSome)).map
            (fun e => (EMOJI_SENTIMENT_MAP.lookup e).getD 0)).sum /
          ((emojis.filter
              (fun e => (EMOJI_SENTIMENT_MAP.lookup e).isSome)).length : Rat))
      ∧ -1 ≤ analyzeEmojiSentiment emojis ∧ analyzeEmojiSentiment emojis ≤ 1 := by
  have hweights : ∀ (emojis : List String)
      (x : String), x ∈ emojis.filter (fun e => (EMOJI_SENTIMENT_MAP.lookup e).isSome) →
      -1 ≤ (EMOJI_SENTIMENT_MAP.lookup x).getD 0 ∧
        (EMOJI_SENTIMENT_MAP.lookup x).getD 0 ≤ 1 := by
    intro emojis x hx
    rw [List.mem_filter] at hx
    obtain ⟨w, hw⟩ := Option.isSome_iff_exists.mp hx.2
    rw [hw, Option.getD_some]
    exact lookup_val_bounds x w EMOJI_SENTIMENT_MAP emoji_map_bounded hw
  refine ⟨rfl, ?_⟩
  intro emojis
  match emojis with
  | [] =>
    have h0 : analyzeEmojiSentiment [] = 0 := rfl
    refine ⟨?_, by rw [h0]; norm_num, by rw [h0]; norm_num⟩
    rw [h0]
    simp
  | e :: rest =>
    have hunfold : analyzeEmojiSentiment (e :: rest) =
        if 0 < ((e :: rest).filter
            (fun e => (EMOJI_SENTIMENT_MAP.lookup e).isSome)).length then
          (((e :: rest).filter (fun e => (EMOJI_SENTIMENT_MAP.lookup e).isSome)).map
              (fun e => (EMOJI_SENTIMENT_MAP.lookup e).getD 0)).sum /
            (((e :: rest).filter
              (fun e => (EMOJI_SENTIMENT_MAP.lookup e).isSome)).length : Rat)
        else 0 := by
      rw [analyzeEmojiSentiment]
      rw [if_neg (by simp)]
      rw [emojiFold_spec (e :: rest) 0 0]
      simp
    by_cases hm : ((e :: rest).filter
        (fun e => (EMOJI_SENTIMENT_MAP.lookup e).isSome)).isEmpty
    · have hlen : ((e :: rest).filter
          (fun e => (EMOJI_SENTIMENT_MAP.lookup e).isSome)).length = 0 := by
        rw [List.isEmpty_iff] at hm
        simp [hm]
      rw [hunfold, hlen]
      refine ⟨?_, by norm_num, by norm_num⟩
      rw [if_neg (by omega), if_pos (by rwa [List.isEmpty_iff, ← List.length_eq_zero])]
    · have hne : ((e :: rest).filter
          (fun e => (EMOJI_SENTIMENT_MAP.lookup e).isSome)) ≠ [] := by
        intro hnil
        exact hm (by simp [hnil])
      have hlen : 0 < ((e :: rest).filter
          (fun e => (EMOJI_SENTIMENT_MAP.lookup e).isSome)).length :=
        List.length_pos.mpr hne
      have hlpos : (0 : Rat) <
          (((e :: rest).filter
            (fun e => (EMOJI_SENTIMENT_MAP.lookup e).isSome)).length : Rat) := by
        exact_mod_cast hlen
      have hsum := sum_bounds_of_forall (fun e => (EMOJI_SENTIMENT_MAP.lookup e).getD 0)
        ((e :: rest).filter (fun e => (EMOJI_SENTIMENT_MAP.lookup e).isSome))
        (hweights (e :: rest))
      rw [hunfold, if_pos hlen]
      refine ⟨?_, ?_, ?_⟩
      · rw [if_neg hm]
      · rw [le_div_iff₀ hlpos]
        linarith [hsum.1]
      · rw [div_le_one hlpos]
        exact hsum.2

/-- C7: the topic histogram returns the single `No Data` placeholder on an
empty comment list, and on a non-empty list in which no comment matches any
of the five keyword lists it returns the five categories at 0 plus the
synthetic `other: 1` entry. -/
theorem extract_topics_histogram :
    extractTopics [] = [("No Data", 1)]
  ∧ ∀ (comments : List Cmt), comments ≠ [] →
      (∀ c ∈ comments, matchesNoTopic c = true) →
      extractTopics comments =
        [("tutorial", 0), ("review", 0), ("question", 0), ("suggestion", 0),
         ("technical", 0), ("other", 1)] := by
  refine ⟨rfl, ?_⟩
  intro comments hne hnm
  have hz : ∀ p ∈ TOPIC_KEYWORDS, comments.countP (commentMatchesTopic p.2) = 0 := by
    intro p hp
    rw [List.countP_eq_zero]
    intro c hc
    have hall := hnm c hc
    rw [matchesNoTopic, List.all_eq_true] at hall
    have h2 := hall p hp
    simp only [Bool.not_eq_true'] at h2
    simp [h2]
  have hm5 : TOPIC_KEYWORDS.map
      (fun p => (p.1, comments.countP (commentMatchesTopic p.2))) =
      TOPIC_KEYWORDS.map (fun p => (p.1, 0)) :=
    List.map_congr_left (fun p hp => by rw [hz p hp])
  rw [extractTopics, if_neg (by simp [hne])]
  rw [hm5]
  simp [TOPIC_KEYWORDS]

/-- Witness for the C7 theorem: two comments reading `nice video` yield the
all-zero histogram with the synthetic `other` entry. -/
theorem extract_topics_histogram_witness :
    extractTopics [[("text", Val.str "nice video")], [("text", Val.str "nice video")]] =
      [("tutorial", 0), ("review", 0), ("question", 0), ("suggestion", 0),
       ("technical", 0), ("other", 1)] :=
  extract_topics_histogram.2 _ (List.cons_ne_nil _ _) (by decide)

theorem lookup_setKey_ne (k k2 : String) (v : Val) (h : k ≠ k2) :
    ∀ (d : Cmt), (setKey d k2 v).lookup k = d.lookup k := by
  intro d
  induction d with
  | nil =>
    have hk : (k == k2) = false := by
      simp [h]
    simp [setKey, List.lookup, hk]
  | cons p rest ih =>
    rcases p with ⟨k', v'⟩
    by_cases hk' : k' == k2
    · have hval : k' = k2 := eq_of_beq hk'
      subst hval
      have hk2 : (k == k') = false := by
        simp [h]
      simp [setKey, List.lookup, hk2]
    · rw [Bool.not_eq_true] at hk'
      simp only [setKey, hk', Bool.false_eq_true, if_false, List.lookup]
      by_cases hkk : k == k'
      · simp [hkk]
      · rw [Bool.not_eq_true] at hkk
        simp [hkk, ih]

/-- C10: `analyze_comment` only writes the `sentiment` and `sentiment_data`
keys; the binding of every other key in the comment dictionary is left
exactly as it was. -/
theorem analyze_comment_frame :
    ∀ (pipeline : Option (String → PipeOut)) (polarity : String → Rat)
      (emojiData : Char → Bool) (tokenize : String → List String)
      (comment : Cmt) (k : String),
      k ≠ "sentiment" → k ≠ "sentiment_data" →
      (analyzeComment pipeline polarity emojiData tokenize comment).lookup k =
        comment.lookup k := by
  intro pipeline polarity emojiData tokenize comment k h1 h2
  rw [analyzeComment]
  rw [lookup_setKey_ne k "sentiment_data" _ h2]
  rw [lookup_setKey_ne k "sentiment" _ h1]

/-- Witness for the C10 theorem: the `likes` binding survives
`analyze_comment` on a concrete comment. -/
theorem analyze_comment_frame_witness :
    (analyzeComment none (fun _ => 0) (fun _ => false) (fun _ => [])
        [("text", Val.str "hi there"), ("likes", Val.num 3)]).lookup "likes" =
      ([("text", Val.str "hi there"), ("likes", Val.num 3)] : Cmt).lookup "likes" :=
  analyze_comment_frame none (fun _ => 0) (fun _ => false) (fun _ => [])
    [("text", Val.str "hi there"), ("likes", Val.num 3)] "likes"
    (by decide) (by decide)

theorem candidatesOfComment_of_text (c : Cmt) (s : String)
    (h : c.lookup "text" = some (.str s)) :
    candidatesOfComment c =
      requestPatterns.filterMap (fun pat =>
        (mineIdea pat.toList (pyLowerStr s).toList).map (fun idea =>
          ⟨idea.asString, coerceLikes (getVal c "likes" (.num 0)),
            getVal c "id" (.str "")⟩)) := by
  rw [candidatesOfComment, h]

theorem mineIdea_eq_some (pat text idea : List Char)
    (h : mineIdea pat text = some idea) :
    ∃ tail, afterFirst pat text = some tail ∧
      3 < (pyStripList (pySubTruncPunct (pyStripList tail))).length ∧
      2 ≤ (pySplitWs (pyStripList (pySubTruncPunct (pyStripList tail)))).length ∧
      idea = capitalizeFirst (pyStripList (pySubTruncPunct (pyStripList tail))) := by
  rcases hAF : afterFirst pat text with _ | tail
  · simp [mineIdea, hAF] at h
  · simp only [mineIdea, hAF] at h
    by_cases hcond : 3 < (pyStripList (pySubTruncPunct (pyStripList tail))).length ∧
        2 ≤ (pySplitWs (pyStripList (pySubTruncPunct (pyStripList tail)))).length
    · rw [if_pos hcond] at h
      exact ⟨tail, rfl, hcond.1, hcond.2, (Option.some.inj h).symm⟩
    · rw [if_neg hcond] at h
      exact absurd h (by simp)

theorem candidatesOfComment_no_text (c : Cmt)
    (h : ∀ s : String, c.lookup "text" ≠ some (.str s)) :
    candidatesOfComment c = [] := by
  rcases htext : c.lookup "text" with _ | v
  · rw [candidatesOfComment, htext]
  · rcases v with s | q | lv | dv | _
    · exact absurd htext (h s)
    · rw [candidatesOfComment, htext]
    · rw [candidatesOfComment, htext]
    · rw [candidatesOfComment, htext]
    · rw [candidatesOfComment, htext]

set_option maxRecDepth 8000 in
/-- C8 (amended): every candidate idea record arises from a comment with a
string text and a pattern occurring in its lowercased text, via: slice
after the first occurrence, strip, apply the `[.!?].*$` truncation (which
cuts at the first sentence-ending punctuation only when no newline stands
between it and the end of the text), strip, keep only candidates longer
than 3 characters with at least 2 words, and capitalize the first letter;
the record carries the comment's coerced likes.  The spec's instance holds:
`"can you make a tutorial on lighting setups. thanks!"` with likes 10
yields `"A tutorial on lighting setups"` with likes 10. -/
theorem content_idea_mining :
    (∀ (comments : List Cmt) (i : String) (l : Rat),
        (i, l) ∈ (contentIdeaCandidates comments).map (fun r => (r.idea, r.likes)) →
        ∃ c ∈ comments, ∃ s : String, c.lookup "text" = some (.str s) ∧
          l = coerceLikes (getVal c "likes" (.num 0)) ∧
          ∃ pat ∈ requestPatterns, ∃ tail,
            afterFirst pat.toList (pyLowerStr s).toList = some tail ∧
            3 < (pyStripList (pySubTruncPunct (pyStripList tail))).length ∧
            2 ≤ (pySplitWs (pyStripList (pySubTruncPunct (pyStripList tail)))).length ∧
            i = (capitalizeFirst (pyStripList (pySubTruncPunct
              (pyStripList tail)))).asString)
  ∧ ("A tutorial on lighting setups", (10 : Rat)) ∈
      (generateContentIdeas
        [[("text", .str "can you make a tutorial on lighting setups. thanks!"),
          ("likes", .num 10), ("id", .str "c1")]] 10).map
        (fun r => (r.idea, r.likes)) := by
  constructor
  · intro comments i l h
    rw [List.mem_map] at h
    obtain ⟨r, hr, hproj⟩ := h
    rw [contentIdeaCandidates, List.mem_flatten] at hr
    obtain ⟨lsub, hlsub, hrl⟩ := hr
    rw [List.mem_map] at hlsub
    obtain ⟨c, hc, hceq⟩ := hlsub
    subst hceq
    by_cases htext : ∃ s : String, c.lookup "text" = some (.str s)
    · obtain ⟨s, hs⟩ := htext
      rw [candidatesOfComment_of_text c s hs, List.mem_filterMap] at hrl
      obtain ⟨pat, hpat, hmine⟩ := hrl
      rw [Option.map_eq_some'] at hmine
      obtain ⟨idea, hidea, hrec⟩ := hmine
      obtain ⟨tail, hAF, h3, h2, hcap⟩ :=
        mineIdea_eq_some pat.toList (pyLowerStr s).toList idea hidea
      have hi : i = (capitalizeFirst (pyStripList (pySubTruncPunct
          (pyStripList tail)))).asString := by
        rw [← hrec] at hproj
        rw [← ((Prod.mk.injEq _ _ _ _).mp hproj).1, ← hcap]
      have hl : l = coerceLikes (getVal c "likes" (.num 0)) := by
        rw [← hrec] at hproj
        exact ((Prod.mk.injEq _ _ _ _).mp hproj).2.symm
      exact ⟨c, hc, s, hs, hl, pat, hpat, tail, hAF, h3, h2, hi⟩
    · rw [candidatesOfComment_no_text c (by push_neg at htext; exact htext)] at hrl
      exact absurd hrl (List.not_mem_nil r)
  · decide

set_option maxRecDepth 8000 in
/-- Witness for the C8 theorem: the provenance of the spec's instance, with
every hypothesis discharged on the concrete comment. -/
theorem content_idea_mining_witness :
    ∃ c ∈ [[("text", Val.str "can you make a tutorial on lighting setups. thanks!"),
        ("likes", Val.num 10), ("id", Val.str "c1")]],
      ∃ s : String, c.lookup "text" = some (.str s) ∧
        (10 : Rat) = coerceLikes (getVal c "likes" (.num 0)) ∧
        ∃ pat ∈ requestPatterns, ∃ tail,
          afterFirst pat.toList (pyLowerStr s).toList = some tail ∧
          3 < (pyStripList (pySubTruncPunct (pyStripList tail))).length ∧
          2 ≤ (pySplitWs (pyStripList (pySubTruncPunct (pyStripList tail)))).length ∧
          "A tutorial on lighting setups" =
            (capitalizeFirst (pyStripList (pySubTruncPunct
              (pyStripList tail)))).asString :=
  content_idea_mining.1
    [[("text", Val.str "can you make a tutorial on lighting setups. thanks!"),
      ("likes", Val.num 10), ("id", Val.str "c1")]]
    "A tutorial on lighting setups" 10 (by decide)

set_option maxRecDepth 8000 in
/-- Counterexample to C8 as stated: on the comment text
`"can you make a video. a\nb"`, the regex `[.!?].*$` does not match (a
newline separates the period from the end of the text), so the mined idea
keeps the period and the following text; the idea `"A video"` that the
claim's unconditional truncation rule predicts is not produced. -/
theorem content_idea_mining_counterexample :
    (generateContentIdeas [[("text", Val.str "can you make a video. a\nb"),
        ("likes", Val.num 1)]] 10).map (fun r => r.idea) = ["A video. a\nb"] ∧
    "A video" ∉ (generateContentIdeas [[("text", Val.str "can you make a video. a\nb"),
        ("likes", Val.num 1)]] 10).map (fun r => r.idea) :=
  ⟨by decide, by decide⟩

theorem charToNat_ofNat (n : Nat) (h : n.isValidChar) : (Char.ofNat n).toNat = n := by
  simp only [Char.ofNat, dif_pos h, Char.ofNatAux, Char.toNat]
  simp [UInt32.toNat, BitVec.toNat_ofNatLt]

theorem toLower_toLower (c : Char) : (c.toLower).toLower = c.toLower := by
  by_cases h : c.toNat ≥ 65 ∧ c.toNat ≤ 90
  · have hv : (c.toNat + 32).isValidChar := by
      left
      omega
    simp only [Char.toLower, if_pos h, charToNat_ofNat _ hv]
    rw [if_neg (by omega)]
  · simp only [Char.toLower, if_neg h]

theorem mem_replaceCharWithSpace {c : Char} (p : Char) (l : List Char)
    (h : c ∈ replaceCharWithSpace p l) : c = ' ' ∨ c ∈ l := by
  rw [replaceCharWithSpace, List.mem_map] at h
  obtain ⟨d, hd, he⟩ := h
  by_cases hdp : d == p
  · left
    rw [← he, if_pos hdp]
  · right
    rw [← he, if_neg (by simp [hdp])]
    exact hd

theorem mem_stripPunct_aux (ed : Char → Bool) :
    ∀ (ps : List Char) (l : List Char) (c : Char),
      c ∈ ps.foldl (fun acc p => if ed p then acc else replaceCharWithSpace p acc) l →
      c = ' ' ∨ c ∈ l := by
  intro ps
  induction ps with
  | nil =>
    intro l c h
    right
    simpa using h
  | cons p ps ih =>
    intro l c h
    rw [List.foldl_cons] at h
    by_cases hp : ed p
    · rw [if_pos hp] at h
      exact ih l c h
    · rw [if_neg hp] at h
      rcases ih _ c h with h' | h'
      · exact Or.inl h'
      · exact mem_replaceCharWithSpace p l h'

theorem mem_stripPunct (ed : Char → Bool) (l : List Char) (c : Char)
    (h : c ∈ stripPunct ed l) : c = ' ' ∨ c ∈ l :=
  mem_stripPunct_aux ed pyPunctuation l c h

theorem dropHttpPrefix_subset {l r0 : List Char} (h : dropHttpPrefix l = some r0) :
    r0 ⊆ l := by
  rw [dropHttpPrefix] at h
  split at h
  · cases h
    exact List.drop_subset _ _
  · split at h
    · cases h
      exact List.drop_subset _ _
    · exact absurd h (by simp)

theorem dropHttpPrefix_colon {l r0 : List Char} (h : dropHttpPrefix l = some r0) :
    ':' ∈ l := by
  rw [dropHttpPrefix] at h
  split at h
  · next h8 => exact (List.isPrefixOf_iff_prefix.mp h8).subset (by decide)
  · split at h
    · next h7 => exact (List.isPrefixOf_iff_prefix.mp h7).subset (by decide)
    · exact absurd h (by simp)

theorem urlMatch_suffix_mem {l r : List Char} (h : urlMatch l = some r) :
    ∀ c ∈ r, c ∈ l := by
  rcases hd : dropHttpPrefix l with _ | r0
  · simp [urlMatch, hd] at h
  · simp only [urlMatch, hd] at h
    by_cases hrun : (r0.takeWhile (fun c => !pyIsSpace c)).isEmpty
    · simp [hrun] at h
    · rw [if_neg hrun] at h
      intro c hc
      rw [← Option.some_inj.mp h] at hc
      exact dropHttpPrefix_subset hd (List.drop_subset _ _ hc)

theorem urlMatch_colon {l r : List Char} (h : urlMatch l = some r) : ':' ∈ l := by
  rcases hd : dropHttpPrefix l with _ | r0
  · simp [urlMatch, hd] at h
  · exact dropHttpPrefix_colon hd

theorem mem_removeUrlsGo : ∀ (fuel : Nat) (l : List Char) (c : Char),
    c ∈ removeUrlsGo fuel l → c ∈ l := by
  intro fuel
  induction fuel with
  | zero =>
    intro l c h
    simpa [removeUrlsGo] using h
  | succ fuel ih =>
    intro l c h
    match l with
    | [] => simpa [removeUrlsGo] using h
    | d :: rest =>
      rcases hU : urlMatch (d :: rest) with _ | r
      · simp only [removeUrlsGo, hU] at h
        rcases List.mem_cons.mp h with h' | h'
        · simp [h']
        · exact List.mem_cons_of_mem _ (ih rest c h')
      · simp only [removeUrlsGo, hU] at h
        exact urlMatch_suffix_mem hU c (ih r c h)

theorem removeUrlsGo_id : ∀ (fuel : Nat) (l : List Char),
    ':' ∉ l → removeUrlsGo fuel l = l := by
  intro fuel
  induction fuel with
  | zero =>
    intro l _
    rfl
  | succ fuel ih =>
    intro l h
    match l with
    | [] => rfl
    | d :: rest =>
      rcases hU : urlMatch (d :: rest) with _ | r
      · simp only [removeUrlsGo, hU]
        rw [ih rest (fun hc => h (List.mem_cons_of_mem _ hc))]
      · exact absurd (urlMatch_colon hU) h

theorem mem_stripTagGo (tag : Char) : ∀ (fuel : Nat) (l : List Char) (c : Char),
    c ∈ stripTagGo tag fuel l → c ∈ l := by
  intro fuel
  induction fuel with
  | zero =>
    intro l c h
    simpa [stripTagGo] using h
  | succ fuel ih =>
    intro l c h
    match l with
    | [] => simpa [stripTagGo] using h
    | d :: rest =>
      by_cases hd : d == tag
      · by_cases hrun : (rest.takeWhile (fun d => !pyIsSpace d)).isEmpty
        · simp only [stripTagGo, hd, if_true, hrun] at h
          rcases List.mem_cons.mp h with h' | h'
          · simp [h']
          · exact List.mem_cons_of_mem _ (ih rest c h')
        · simp only [stripTagGo, hd, if_true, hrun, Bool.false_eq_true, if_false] at h
          rcases List.mem_append.mp h with h' | h'
          · exact List.mem_cons_of_mem _
              ((List.takeWhile_sublist _).subset h')
          · exact List.mem_cons_of_mem _
              (List.drop_subset _ _ (ih _ c h'))
      · simp only [stripTagGo, hd, Bool.false_eq_true, if_false] at h
        rcases List.mem_cons.mp h with h' | h'
        · simp [h']
        · exact List.mem_cons_of_mem _ (ih rest c h')

theorem stripTagGo_id (tag : Char) : ∀ (fuel : Nat) (l : List Char),
    tag ∉ l → stripTagGo tag fuel l = l := by
  intro fuel
  induction fuel with
  | zero =>
    intro l _
    rfl
  | succ fuel ih =>
    intro l h
    match l with
    | [] => rfl
    | d :: rest =>
      have hd : (d == tag) = false := by
        have : d ≠ tag := fun he => h (by simp [he])
        simp [this]
      simp only [stripTagGo, hd, Bool.false_eq_true, if_false]
      rw [ih rest (fun hc => h (List.mem_cons_of_mem _ hc))]

theorem mem_collapseSpacesGo : ∀ (fuel : Nat) (l : List Char) (c : Char),
    c ∈ collapseSpacesGo fuel l → c = ' ' ∨ c ∈ l := by
  intro fuel
  induction fuel with
  | zero =>
    intro l c h
    right
    simpa [collapseSpacesGo] using h
  | succ fuel ih =>
    intro l c h
    match l with
    | [] => simp [collapseSpacesGo] at h
    | d :: rest =>
      by_cases hd : pyIsSpace d
      · simp only [collapseSpacesGo, hd, if_true] at h
        rcases List.mem_cons.mp h with h' | h'
        · exact Or.inl h'
        · rcases ih _ c h' with h'' | h''
          · exact Or.inl h''
          · exact Or.inr (List.mem_cons_of_mem _
              ((List.dropWhile_sublist _).subset h''))
      · simp only [collapseSpacesGo, hd, Bool.false_eq_true, if_false] at h
        rcases List.mem_cons.mp h with h' | h'
        · right
          simp [h']
        · rcases ih rest c h' with h'' | h''
          · exact Or.inl h''
          · exact Or.inr (List.mem_cons_of_mem _ h'')

theorem mem_dropTrailingWs : ∀ (l : List Char) (c : Char),
    c ∈ dropTrailingWs l → c ∈ l := by
  intro l
  induction l with
  | nil =>
    intro c h
    simpa [dropTrailingWs] using h
  | cons d rest ih =>
    intro c h
    simp only [dropTrailingWs] at h
    by_cases hd : (dropTrailingWs rest).isEmpty && pyIsSpace d
    · rw [if_pos hd] at h
      simp at h
    · rw [if_neg hd] at h
      rcases List.mem_cons.mp h with h' | h'
      · simp [h']
      · exact List.mem_cons_of_mem _ (ih c h')

theorem mem_pyStripList (l : List Char) (c : Char) (h : c ∈ pyStripList l) :
    c ∈ l := by
  rw [pyStripList] at h
  exact (List.dropWhile_sublist _).subset (mem_dropTrailingWs _ c h)

theorem foldl_replace_eq_map (ed : Char → Bool) :
    ∀ (ps : List Char), (∀ p ∈ ps, ed p = false) →
      ∀ (l : List Char),
        ps.foldl (fun acc p => if ed p then acc else replaceCharWithSpace p acc) l =
          l.map (fun c => if c ∈ ps then ' ' else c) := by
  intro ps
  induction ps with
  | nil =>
    intro _ l
    simp
  | cons p ps ih =>
    intro hps l
    rw [List.foldl_cons, if_neg (by simp [hps p (List.mem_cons_self _ _)])]
    rw [ih (fun q hq => hps q (List.mem_cons_of_mem _ hq)) (replaceCharWithSpace p l)]
    rw [replaceCharWithSpace, List.map_map]
    apply List.map_congr_left
    intro d _
    by_cases hdp : d == p
    · have hde : d = p := eq_of_beq hdp
      subst hde
      simp
    · have hde : d ≠ p := by
        intro he
        simp [he] at hdp
      simp only [Function.comp, if_neg hdp]
      simp [List.mem_cons, hde]

theorem stripPunct_eq_map (ed : Char → Bool)
    (hed : ∀ p ∈ pyPunctuation, ed p = false) (l : List Char) :
    stripPunct ed l = l.map (fun c => if c ∈ pyPunctuation then ' ' else c) :=
  foldl_replace_eq_map ed pyPunctuation hed l

theorem stripPunct_id (ed : Char → Bool)
    (hed : ∀ p ∈ pyPunctuation, ed p = false) (l : List Char)
    (hl : ∀ c ∈ l, c ∉ pyPunctuation) : stripPunct ed l = l := by
  rw [stripPunct_eq_map ed hed l]
  have hmap : l.map (fun c => if c ∈ pyPunctuation then ' ' else c) = l.map id :=
    List.map_congr_left (fun c hc => by rw [if_neg (hl c hc)]; rfl)
  rw [hmap, List.map_id]

theorem wsOK_tail {c : Char} {rest : List Char} (h : wsOK (c :: rest) = true) :
    wsOK rest = true := by
  rw [wsOK, Bool.and_eq_true] at h
  exact h.2

theorem headNotSpace_dropWhile (l : List Char) :
    headNotSpace (l.dropWhile pyIsSpace) = true := by
  induction l with
  | nil => rfl
  | cons d rest ih =>
    rw [List.dropWhile_cons]
    by_cases hd : pyIsSpace d
    · rw [if_pos hd]
      exact ih
    · rw [if_neg hd]
      simp [headNotSpace, hd]

theorem collapseGo_head (fuel : Nat) (l : List Char) (h : headNotSpace l = true) :
    headNotSpace (collapseSpacesGo fuel l) = true := by
  match fuel, l with
  | 0, l => exact h
  | fuel + 1, [] => rfl
  | fuel + 1, d :: rest =>
    rw [headNotSpace] at h
    rw [collapseSpacesGo, if_neg (by simp at h; simp [h])]
    exact h

theorem wsOK_collapseGo : ∀ (fuel : Nat) (l : List Char), l.length ≤ fuel →
    wsOK (collapseSpacesGo fuel l) = true := by
  intro fuel
  induction fuel with
  | zero =>
    intro l h
    have : l = [] := List.length_eq_zero.mp (Nat.le_zero.mp h)
    subst this
    rfl
  | succ fuel ih =>
    intro l h
    match l with
    | [] => rfl
    | d :: rest =>
      by_cases hd : pyIsSpace d
      · rw [collapseSpacesGo, if_pos hd, wsOK, Bool.and_eq_true]
        constructor
        · have hh := collapseGo_head fuel _ (headNotSpace_dropWhile rest)
          simp [hh]
        · refine ih _ ?_
          have := (List.dropWhile_sublist (l := rest) pyIsSpace).length_le
          simp at h
          omega
      · rw [collapseSpacesGo, if_neg hd, wsOK, Bool.and_eq_true]
        constructor
        · simp [hd]
        · refine ih rest ?_
          simp at h
          omega

theorem collapseGo_of_wsOK : ∀ (fuel : Nat) (l : List Char), wsOK l = true →
    collapseSpacesGo fuel l = l := by
  intro fuel
  induction fuel with
  | zero =>
    intro l _
    rfl
  | succ fuel ih =>
    intro l h
    match l with
    | [] => rfl
    | d :: rest =>
      rw [wsOK, Bool.and_eq_true] at h
      by_cases hd : pyIsSpace d
      · have h1 := h.1
        rw [hd] at h1
        simp only [Bool.not_true, Bool.false_or, Bool.and_eq_true, beq_iff_eq] at h1
        have hdw : rest.dropWhile pyIsSpace = rest := by
          match rest with
          | [] => rfl
          | e :: r2 =>
            rw [headNotSpace] at h1
            rw [List.dropWhile_cons,
              if_neg (by have := h1.2; simp at this; simp [this])]
        rw [collapseSpacesGo, if_pos hd, hdw, ih rest h.2, h1.1]
      · rw [collapseSpacesGo, if_neg hd, ih rest h.2]

theorem wsOK_dropWhile (l : List Char) (h : wsOK l = true) :
    wsOK (l.dropWhile pyIsSpace) = true := by
  induction l with
  | nil => exact h
  | cons d rest ih =>
    rw [List.dropWhile_cons]
    by_cases hd : pyIsSpace d
    · rw [if_pos hd]
      exact ih (wsOK_tail h)
    · rw [if_neg hd]
      exact h

theorem dTW_nil_or_head : ∀ (l : List Char), dropTrailingWs l = [] ∨
    (dropTrailingWs l).head? = l.head? := by
  intro l
  match l with
  | [] => exact Or.inl rfl
  | c :: rest =>
    by_cases hc : (dropTrailingWs rest).isEmpty && pyIsSpace c
    · left
      simp only [dropTrailingWs]
      rw [if_pos hc]
    · right
      simp only [dropTrailingWs]
      rw [if_neg hc]
      rfl

theorem headNotSpace_dTW (l : List Char) (h : headNotSpace l = true) :
    headNotSpace (dropTrailingWs l) = true := by
  rcases dTW_nil_or_head l with h0 | hh
  · rw [h0]
    rfl
  · match l with
    | [] => rfl
    | c :: rest =>
      match hd : dropTrailingWs (c :: rest) with
      | [] => rfl
      | d :: r =>
        rw [hd] at hh
        have hdc : d = c := by simpa using hh
        rw [headNotSpace, hdc]
        exact h

theorem wsOK_dTW : ∀ (l : List Char), wsOK l = true →
    wsOK (dropTrailingWs l) = true := by
  intro l
  induction l with
  | nil =>
    intro h
    exact h
  | cons c rest ih =>
    intro h
    have hOk := wsOK_tail h
    simp only [dropTrailingWs]
    by_cases hc : (dropTrailingWs rest).isEmpty && pyIsSpace c
    · rw [if_pos hc]
      rfl
    · rw [if_neg hc, wsOK, Bool.and_eq_true]
      refine ⟨?_, ih hOk⟩
      rw [wsOK, Bool.and_eq_true] at h
      cases hsp : pyIsSpace c
      · simp [hsp]
      · have h1 := h.1
        rw [hsp] at h1
        simp only [Bool.not_true, Bool.false_or, Bool.and_eq_true, beq_iff_eq] at h1
        have := headNotSpace_dTW rest h1.2
        simp [hsp, h1.1, this]

theorem dTW_idem : ∀ (l : List Char),
    dropTrailingWs (dropTrailingWs l) = dropTrailingWs l := by
  intro l
  induction l with
  | nil => rfl
  | cons c rest ih =>
    by_cases hc : (dropTrailingWs rest).isEmpty && pyIsSpace c
    · simp only [dropTrailingWs]
      rw [if_pos hc]
      rfl
    · have h1 : dropTrailingWs (c :: rest) = c :: dropTrailingWs rest := by
        simp only [dropTrailingWs]
        rw [if_neg hc]
      rw [h1]
      have h2 : dropTrailingWs (c :: dropTrailingWs rest) =
          if (dropTrailingWs (dropTrailingWs rest)).isEmpty && pyIsSpace c then []
          else c :: dropTrailingWs (dropTrailingWs rest) := by
        simp only [dropTrailingWs]
      rw [h2, ih, if_neg hc]

theorem dropWhile_headNotSpace (l : List Char) (h : headNotSpace l = true) :
    l.dropWhile pyIsSpace = l := by
  match l with
  | [] => rfl
  | c :: r =>
    rw [headNotSpace] at h
    rw [List.dropWhile_cons, if_neg (by simp at h; simp [h])]

theorem pyStripList_idem (l : List Char) :
    pyStripList (pyStripList l) = pyStripList l := by
  conv_lhs => rw [pyStripList, pyStripList]
  rw [dropWhile_headNotSpace _ (headNotSpace_dTW _ (headNotSpace_dropWhile l))]
  rw [dTW_idem]
  rw [pyStripList]

theorem wsOK_pyStripList (l : List Char) (h : wsOK l = true) :
    wsOK (pyStripList l) = true :=
  wsOK_dTW _ (wsOK_dropWhile l h)

theorem cleanList_chars (ed : Char → Bool)
    (hed : ∀ p ∈ pyPunctuation, ed p = false) (t : List Char) :
    ∀ c ∈ cleanList ed t, c ∉ pyPunctuation ∧ Char.toLower c = c := by
  intro c hc
  rw [cleanList] at hc
  have hc1 := mem_pyStripList _ c hc
  rcases mem_collapseSpacesGo _ _ c hc1 with hsp | hc2
  · subst hsp
    exact ⟨by decide, by decide⟩
  · rw [stripPunct_eq_map ed hed, List.mem_map] at hc2
    obtain ⟨d, hd, he⟩ := hc2
    by_cases hdp : d ∈ pyPunctuation
    · rw [if_pos hdp] at he
      rw [← he]
      exact ⟨by decide, by decide⟩
    · rw [if_neg hdp] at he
      subst he
      have hd1 := mem_stripTagGo '@' _ _ d hd
      have hd2 := mem_stripTagGo '#' _ _ d hd1
      have hd3 := mem_removeUrlsGo _ _ d hd2
      rw [pyLowerList, List.mem_map] at hd3
      obtain ⟨x, _, hx⟩ := hd3
      exact ⟨hdp, by rw [← hx, toLower_toLower]⟩

theorem cleanList_idem (ed : Char → Bool)
    (hed : ∀ p ∈ pyPunctuation, ed p = false) (t : List Char) :
    cleanList ed (cleanList ed t) = cleanList ed t := by
  have hch := cleanList_chars ed hed t
  have hnp : ∀ c ∈ cleanList ed t, c ∉ pyPunctuation := fun c hc => (hch c hc).1
  have hlow : pyLowerList (cleanList ed t) = cleanList ed t := by
    rw [pyLowerList]
    have hmap : (cleanList ed t).map Char.toLower = (cleanList ed t).map id :=
      List.map_congr_left (fun c hc => (hch c hc).2)
    rw [hmap, List.map_id]
  have hurl : removeUrls (cleanList ed t) = cleanList ed t :=
    removeUrlsGo_id _ _ (fun h => hnp ':' h (by decide))
  have hhash : stripTag '#' (cleanList ed t) = cleanList ed t :=
    stripTagGo_id '#' _ _ (fun h => hnp '#' h (by decide))
  have hat : stripTag '@' (cleanList ed t) = cleanList ed t :=
    stripTagGo_id '@' _ _ (fun h => hnp '@' h (by decide))
  have hpunct : stripPunct ed (cleanList ed t) = cleanList ed t :=
    stripPunct_id ed hed _ hnp
  have hws : wsOK (cleanList ed t) = true := by
    rw [cleanList]
    exact wsOK_pyStripList _ (wsOK_collapseGo _ _ (le_refl _))
  conv_lhs => rw [cleanList]
  rw [hlow, hurl, hhash, hat, hpunct]
  rw [show collapseSpaces (cleanList ed t) = cleanList ed t from
    collapseGo_of_wsOK _ _ hws]
  conv_lhs => rw [cleanList]
  exact pyStripList_idem _

/-- C4: the text normalizer is idempotent on its normalized-text component:
cleaning the cleaned text again returns it unchanged, for any emoji table
that contains no ASCII punctuation character (as `emoji.EMOJI_DATA` does
not). -/
theorem clean_comment_text_idempotent :
    ∀ (emojiData : Char → Bool), (∀ p ∈ pyPunctuation, emojiData p = false) →
      ∀ (t : String),
        (cleanCommentText emojiData
          (.str (cleanCommentText emojiData (.str t)).1)).1 =
          (cleanCommentText emojiData (.str t)).1 := by
  intro ed hed t
  show (cleanList ed ((cleanList ed t.toList).asString).toList).asString =
    (cleanList ed t.toList).asString
  have hts : ((cleanList ed t.toList).asString).toList = cleanList ed t.toList := rfl
  rw [hts, cleanList_idem ed hed]

/-- Witness for the C4 theorem on a concrete raw comment. -/
theorem clean_comment_text_idempotent_witness :
    (cleanCommentText (fun _ => false)
        (.str (cleanCommentText (fun _ => false)
          (.str "Check https://x.co #Tag @User!!  more")).1)).1 =
      (cleanCommentText (fun _ => false)
        (.str "Check https://x.co #Tag @User!!  more")).1 :=
  clean_comment_text_idempotent (fun _ => false) (by decide)
    "Check https://x.co #Tag @User!!  more"
